import Mathlib

/-!
Shallow embedding of the `pace` repository (src/graph.rs, src/graph_builder.rs):
a bipartite graph type for the one-sided crossing minimization problem, two
crossing-counting routines, and three graph builders.

Modelling conventions:
* Rust `usize` values are `Nat`; where wrap-around matters (`u - 1` on an edge
  token in `build_graph_from_file`) the wrap is made explicit modulo `2 ^ 64`
  (release-build overflow semantics).
* `Result<T, Error>` is `Except Error T`; an operation that can additionally
  panic (`expect` / `unwrap` on values not guaranteed by construction) returns
  `Option`, `none` standing for a panic.
* `BTreeSet<usize>` is a strictly ascending `List Nat`; `HashSet` equality is
  mutual containment; the `HashMap` of positions is modelled by a last-insert-
  wins lookup over the enumerated ordering.
* Randomness (`thread_rng`) is made explicit: the shuffle result of
  `build_graph_with_fixed_nodes_and_no_crossings` is a parameter, and
  `build_random_graph` consumes a finite list of raw draws (one pair per loop
  iteration); exhausting the list models a run that has not yet terminated.
* File I/O is abstracted: `build_graph_from_lines` receives the list of lines
  of the file.
-/

/-- Modelled from the spec: the error taxonomy of `src/error.rs` (that file is
not part of the sources given); §7 lists `IndexError`, `ValueError`,
`ParseError` and an I/O-failure kind, each carrying a message. -/
inductive Error where
  | IndexError : String → Error
  | ValueError : String → Error
  | ParseError : String → Error
  | IOError : String → Error
deriving DecidableEq

deriving instance DecidableEq for Except

/-- `usize::MAX + 1`. -/
def USIZE : Nat := 2 ^ 64

/-- `Graph` (src/graph.rs lines 21-28). `adjacency_list` is the vector of
`BTreeSet`s, each set a strictly ascending list. -/
structure Graph where
  number_of_nodes : Nat
  number_of_fixed_nodes : Nat
  number_of_free_nodes : Nat
  number_of_edges : Nat
  adjacency_list : List (List Nat)
deriving DecidableEq

/-- `self.adjacency_list.get(i).expect(..)`: every reachable graph has
`adjacency_list.length = number_of_nodes`, so for the in-bounds indices used by
the code the default is never taken. -/
def adjListAt (g : Graph) (i : Nat) : List Nat := g.adjacency_list.getD i []

/-- `Graph::new` (src/graph.rs lines 51-60). -/
def Graph.new (number_of_fixed_nodes number_of_free_nodes : Nat) : Graph :=
  { number_of_nodes := number_of_fixed_nodes + number_of_free_nodes
    number_of_fixed_nodes := number_of_fixed_nodes
    number_of_free_nodes := number_of_free_nodes
    number_of_edges := 0
    adjacency_list :=
      List.replicate (number_of_fixed_nodes + number_of_free_nodes) [] }

/-- `BTreeSet::insert` on a strictly ascending list: returns the updated list
and whether the element was newly inserted. -/
def btreeInsert (x : Nat) : List Nat → List Nat × Bool
  | [] => ([x], true)
  | y :: ys =>
    if x < y then (x :: y :: ys, true)
    else if x = y then (y :: ys, false)
    else
      let r := btreeInsert x ys
      (y :: r.1, r.2)

/-- `Graph::add_edge` (src/graph.rs lines 69-93): bounds check, insert `j`
into `adjacency_list[i]`, then insert `i` into the updated
`adjacency_list[j]`; the edge counter grows only when both inserts were new;
the returned flag is the first insert's. -/
def Graph.add_edge (g : Graph) (i j : Nat) : Except Error (Graph × Bool) :=
  if i ≥ g.number_of_nodes ∨ j ≥ g.number_of_nodes then
    .error (.IndexError "Index out of bounds")
  else
    let r1 := btreeInsert j (g.adjacency_list.getD i [])
    let al1 := g.adjacency_list.set i r1.1
    let r2 := btreeInsert i (al1.getD j [])
    let al2 := al1.set j r2.1
    .ok ({ g with
            adjacency_list := al2
            number_of_edges :=
              if r1.2 ∧ r2.2 then g.number_of_edges + 1
              else g.number_of_edges },
         r1.2)

/-- `Graph::does_edge_exist` (src/graph.rs lines 96-106). -/
def Graph.does_edge_exist (g : Graph) (i j : Nat) : Except Error Bool :=
  if i ≥ g.number_of_nodes ∨ j ≥ g.number_of_nodes then
    .error (.IndexError "Index is out of bounds")
  else
    .ok ((g.adjacency_list.getD i []).contains j)

/-- The sequence of neighbour pairs `(a, b)` visited by the two nested fixed-
node loops of both crossing counters (src/graph.rs lines 112-130 and 160-185):
for `f1` in `0..fixed`, for `f2` in `f1+1..fixed`, for `a` in adjacency of
`f1`, for `b` in adjacency of `f2`. -/
def fixedPairNeighborPairs (g : Graph) : List (Nat × Nat) :=
  (List.range g.number_of_fixed_nodes).flatMap fun f1 =>
    (List.range' (f1 + 1) (g.number_of_fixed_nodes - (f1 + 1))).flatMap fun f2 =>
      (adjListAt g f1).flatMap fun a =>
        (adjListAt g f2).map fun b => (a, b)

/-- `Graph::compute_number_of_crossings_with_default_ordering`
(src/graph.rs lines 109-133): count the visited pairs with
`neighbor_index2 < neighbor_index1`. -/
def Graph.compute_number_of_crossings_with_default_ordering (g : Graph) :
    Except Error Nat :=
  .ok ((fixedPairNeighborPairs g).countP fun q => decide (q.2 < q.1))

/-- Mutual-containment equality of the two `HashSet<usize>` values compared in
the ordering validation (src/graph.rs lines 147-148). -/
def sameSet (xs ys : List Nat) : Bool :=
  xs.all (fun x => ys.contains x) && ys.all (fun y => xs.contains y)

/-- `positions.get(x)` for the `HashMap` built by inserting
`(ordering[k], k)` for `k = 0, 1, ...` (src/graph.rs lines 154-157): a later
insert for the same key overwrites an earlier one, so the lookup prefers the
rightmost occurrence. -/
def positionsFindAux (x : Nat) : List Nat → Nat → Option Nat
  | [], _ => none
  | y :: ys, k =>
    match positionsFindAux x ys (k + 1) with
    | some p => some p
    | none => if y = x then some k else none

/-- Lookup in the positions map of `ordering`. -/
def positionsFind (ordering : List Nat) (x : Nat) : Option Nat :=
  positionsFindAux x ordering 0

/-- The counting loop of `compute_number_of_crossings_for_ordering`
(src/graph.rs lines 159-185): each visited pair looks up both positions
(`.expect` = panic = `none` when absent) and counts `position2 < position1`. -/
def countWithPositions (posf : Nat → Option Nat) :
    List (Nat × Nat) → Option Nat
  | [] => some 0
  | q :: rest =>
    match posf q.1, posf q.2, countWithPositions posf rest with
    | some p1, some p2, some c => some ((if p2 < p1 then 1 else 0) + c)
    | _, _, _ => none

/-- `Graph::compute_number_of_crossings_for_ordering`
(src/graph.rs lines 138-188): length check, set-equality check against
`number_of_fixed_nodes..number_of_nodes`, then the position-based count.
`none` models the `.expect` panic on a neighbour without a position. -/
def Graph.compute_number_of_crossings_for_ordering (g : Graph)
    (ordering : List Nat) : Option (Except Error Nat) :=
  if ordering.length ≠ g.number_of_free_nodes then
    some (.error (.ValueError "The ordering does not contain all free nodes"))
  else if sameSet ordering
      (List.range' g.number_of_fixed_nodes
        (g.number_of_nodes - g.number_of_fixed_nodes)) = false then
    some (.error (.ValueError "The ordering does not contain all free nodes"))
  else
    (countWithPositions (positionsFind ordering)
      (fixedPairNeighborPairs g)).map Except.ok

/-- Loop of `build_graph_with_fixed_nodes_and_no_crossings`
(src/graph_builder.rs lines 23-34), processing the remaining fixed indices:
read `shuffled[i]` and `shuffled[i+1]` (`.expect` = `none` when absent) and
add the two edges (`.unwrap()` = `none` on `Err`). -/
def noCrossingLoop (shuffled : List Nat) : Graph → List Nat → Option Graph
  | g, [] => some g
  | g, i :: rest =>
    match shuffled[i]?, shuffled[i + 1]? with
    | some neighbor1, some neighbor2 =>
      match g.add_edge neighbor1 i with
      | .error _ => none
      | .ok (g1, _) =>
        match g1.add_edge neighbor2 i with
        | .error _ => none
        | .ok (g2, _) => noCrossingLoop shuffled g2 rest
    | _, _ => none

/-- `GraphBuilder::build_graph_with_fixed_nodes_and_no_crossings`
(src/graph_builder.rs lines 16-44). `shuffled` is the result of shuffling
`(F..2F).collect()` with `thread_rng`, i.e. an arbitrary permutation of
`F..2F`, passed explicitly. The Rust loop bound `0..F - 1` uses `usize`
subtraction; for `F = 0` the run panics (debug: overflow on `F - 1`; release:
the `.expect`/`.unwrap` on the empty vector), which the model reaches through
`getLast? [] = none`. -/
def GraphBuilder.build_graph_with_fixed_nodes_and_no_crossings
    (number_of_fixed_nodes : Nat) (shuffled : List Nat) : Option Graph :=
  match noCrossingLoop shuffled
      (Graph.new number_of_fixed_nodes number_of_fixed_nodes)
      (List.range (number_of_fixed_nodes - 1)) with
  | none => none
  | some g =>
    match shuffled.getLast? with
    | none => none
    | some lastNode =>
      match g.add_edge lastNode (number_of_fixed_nodes - 1) with
      | .error _ => none
      | .ok (g2, _) => some g2

/-- `rng.gen_range(lo..hi)`: panics (`none`) on an empty range, otherwise an
in-range value selected by the raw draw `x`; quantifying over `x` covers every
possible outcome. -/
def genRange (lo hi x : Nat) : Option Nat :=
  if lo < hi then some (lo + x % (hi - lo)) else none

/-- The edge-sampling loop of `build_random_graph`
(src/graph_builder.rs lines 102-112): while edges remain to be placed, draw a
fixed and a free index and retry until `add_edge` reports a new edge (`?`
propagates its error). One raw draw pair is consumed per inner iteration;
an exhausted draw list (`none`) models a run that is still looping. -/
def randomEdgeLoop :
    Graph → Nat → List (Nat × Nat) → Option (Except Error Graph)
  | g, 0, _ => some (.ok g)
  | _, _ + 1, [] => none
  | g, remaining + 1, d :: draws =>
    match genRange 0 g.number_of_fixed_nodes d.1,
          genRange g.number_of_fixed_nodes g.number_of_nodes d.2 with
    | some fixed_node_index, some free_node_index =>
      match g.add_edge free_node_index fixed_node_index with
      | .error e => some (.error e)
      | .ok (g2, true) => randomEdgeLoop g2 remaining draws
      | .ok (g2, false) => randomEdgeLoop g2 (remaining + 1) draws
    | _, _ => none

/-- `GraphBuilder::build_random_graph` (src/graph_builder.rs lines 84-115):
the feasibility check runs only when `fixed * free` fits in `usize`
(`checked_mul`); then the sampling loop. -/
def GraphBuilder.build_random_graph
    (number_of_fixed_nodes number_of_free_nodes number_of_edges : Nat)
    (draws : List (Nat × Nat)) : Option (Except Error Graph) :=
  if number_of_fixed_nodes * number_of_free_nodes < USIZE then
    if number_of_edges > number_of_fixed_nodes * number_of_free_nodes then
      some (.error (.ValueError
        "It is not possible to construct the graph with that many edges"))
    else
      randomEdgeLoop (Graph.new number_of_fixed_nodes number_of_free_nodes)
        number_of_edges draws
  else
    randomEdgeLoop (Graph.new number_of_fixed_nodes number_of_free_nodes)
      number_of_edges draws

/-- Rust `str::split(' ')` on the characters of a line: splits at every
single space, keeping empty fragments. -/
def splitSpaces : List Char → List (List Char)
  | [] => [[]]
  | c :: cs =>
    if c = ' ' then [] :: splitSpaces cs
    else
      match splitSpaces cs with
      | [] => [[c]]
      | w :: ws => (c :: w) :: ws

/-- Accumulating decimal parse of a digit run; `none` at the first
non-digit character. -/
def digitsToNat : List Char → Nat → Option Nat
  | [], acc => some acc
  | c :: cs, acc =>
    if '0' ≤ c ∧ c ≤ '9' then
      digitsToNat cs (acc * 10 + (c.toNat - '0'.toNat))
    else none

/-- Rust `str::parse::<usize>`: an optional leading `+`, then one or more
ASCII digits, and the value must fit in `usize`. -/
def parseUsize (s : List Char) : Option Nat :=
  let t := match s with
    | '+' :: rest => rest
    | _ => s
  match t with
  | [] => none
  | _ =>
    match digitsToNat t 0 with
    | some n => if n < USIZE then some n else none
    | none => none

/-- Rust `str::starts_with(c)` for a single character pattern. -/
def startsWithChar (s : String) (c : Char) : Bool :=
  match s.data with
  | [] => false
  | d :: _ => d = c

/-- `GraphBuilder::parse_edge_line` (src/graph_builder.rs lines 120-135):
split on spaces, demand exactly two words, parse both as `usize`. -/
def GraphBuilder.parse_edge_line (line : String) : Option (Nat × Nat) :=
  let words := splitSpaces line.data
  if words.length ≠ 2 then none
  else
    match parseUsize (words.getD 0 []), parseUsize (words.getD 1 []) with
    | some u, some v => some (u, v)
    | _, _ => none

/-- `PLineInfo` (src/graph_builder.rs lines 138-143). -/
structure PLineInfo where
  descriptor : List Char
  number_of_fixed_nodes : Nat
  number_of_free_nodes : Nat
  number_of_edges : Nat
deriving DecidableEq

/-- `PLineInfo::build` (src/graph_builder.rs lines 146-175): the line must
start with `p`, split into exactly 5 words, and words 2-4 must parse as
`usize`; the descriptor (word 1) is stored unexamined. -/
def PLineInfo.build (p_line : String) : Option PLineInfo :=
  if startsWithChar p_line 'p' = false then none
  else
    let words := splitSpaces p_line.data
    if words.length ≠ 5 then none
    else
      match parseUsize (words.getD 2 []), parseUsize (words.getD 3 []),
            parseUsize (words.getD 4 []) with
      | some nf, some nfr, some ne => some ⟨words.getD 1 [], nf, nfr, ne⟩
      | _, _, _ => none

/-- `x - 1` on `usize` applied to a parsed edge endpoint
(src/graph_builder.rs line 73): wrapping (release-build) overflow semantics,
so `0 - 1` wraps to `usize::MAX` (a debug build would panic instead). -/
def usizeSub1 (x : Nat) : Nat := if x = 0 then USIZE - 1 else x - 1

/-- Decimal rendering of a `usize`, as used by the edge-count mismatch
message (src/graph_builder.rs line 77). -/
def natToChars (n : Nat) : List Char :=
  (Nat.toDigits 10 n)

/-- The edge-line loop of `build_graph_from_file`
(src/graph_builder.rs lines 66-74): skip comment and blank lines, parse each
remaining line, convert to 0-indexed endpoints (wrapping subtraction) and
insert; a parse failure or an `add_edge` error aborts with that error. -/
def processEdgeLines (g : Graph) : List String → Except Error Graph
  | [] => .ok g
  | line :: rest =>
    if startsWithChar line 'c' = true ∨ line.data = [] then
      processEdgeLines g rest
    else
      match GraphBuilder.parse_edge_line line with
      | none => .error (.ParseError "Unexpected line found!")
      | some (u, v) =>
        match g.add_edge (usizeSub1 u) (usizeSub1 v) with
        | .error e => .error e
        | .ok (g2, _) => processEdgeLines g2 rest

/-- `GraphBuilder::build_graph_from_file` (src/graph_builder.rs lines 47-81)
with the file contents supplied as its list of lines (`BufReader::lines`).
`lines.find(|l| l.starts_with('p'))` consumes every line up to and including
the first one starting with `p`; the edge loop then reads the remaining
lines; finally the declared and actual edge counts must agree. -/
def GraphBuilder.build_graph_from_lines (lines : List String) :
    Except Error Graph :=
  match lines.dropWhile (fun l => !startsWithChar l 'p') with
  | [] => .error (.ParseError "Could not find a valid p line in the file")
  | p_line :: rest =>
    match PLineInfo.build p_line with
    | none => .error (.ParseError "The found p-line was invalid")
    | some info =>
      match processEdgeLines
          (Graph.new info.number_of_fixed_nodes info.number_of_free_nodes)
          rest with
      | .error e => .error e
      | .ok g =>
        if info.number_of_edges ≠ g.number_of_edges then
          .error (.ParseError (String.mk
            ("The number of edges in the file was invalid. ".data
              ++ natToChars info.number_of_edges
              ++ " were expected, but ".data
              ++ natToChars g.number_of_edges
              ++ " were actually found.".data)))
        else .ok g

/-- Strict ascending order of a neighbour list: the representation invariant
of `BTreeSet<usize>` iteration. -/
def sortedAsc : List Nat → Bool
  | [] => true
  | [_] => true
  | x :: y :: rest => decide (x < y) && sortedAsc (y :: rest)

/-- Well-formedness of a `Graph`: what holds for every value reachable through
`Graph::new` and `Graph::add_edge` (the Rust struct's fields are private):
one adjacency set per node, consistent node counts, strictly ascending sets
with in-range elements, and symmetric adjacency. -/
def Graph.WF (g : Graph) : Prop :=
  g.adjacency_list.length = g.number_of_nodes ∧
  g.number_of_nodes = g.number_of_fixed_nodes + g.number_of_free_nodes ∧
  (∀ l ∈ g.adjacency_list, sortedAsc l = true) ∧
  (∀ l ∈ g.adjacency_list, ∀ x ∈ l, x < g.number_of_nodes) ∧
  (∀ i, i < g.number_of_nodes → ∀ j, j < g.number_of_nodes →
    (j ∈ adjListAt g i ↔ i ∈ adjListAt g j))

instance (g : Graph) : Decidable g.WF := by
  unfold Graph.WF
  infer_instance

theorem adjListAt_mem_or_nil (g : Graph) (k : Nat) :
    adjListAt g k ∈ g.adjacency_list ∨ adjListAt g k = [] := by
  unfold adjListAt
  rcases Nat.lt_or_ge k g.adjacency_list.length with h | h
  · left
    rw [List.getD_eq_getElem?_getD, List.getElem?_eq_getElem h]
    exact List.getElem_mem h
  · right
    rw [List.getD_eq_getElem?_getD, List.getElem?_eq_none h]
    rfl

theorem getD_set_self {l : List (List Nat)} {i : Nat} {v : List Nat}
    (h : i < l.length) : (l.set i v).getD i [] = v := by
  rw [List.getD_eq_getElem?_getD, List.getElem?_set_self (by simpa using h)]
  rfl

theorem getD_set_ne {l : List (List Nat)} {i k : Nat} {v : List Nat}
    (h : i ≠ k) : (l.set i v).getD k [] = l.getD k [] := by
  rw [List.getD_eq_getElem?_getD, List.getD_eq_getElem?_getD,
    List.getElem?_set_ne h]

theorem getD_replicate_nil :
    ∀ n k : Nat, (List.replicate n ([] : List Nat)).getD k [] = []
  | 0, _ => rfl
  | _ + 1, 0 => rfl
  | n + 1, k + 1 => getD_replicate_nil n k

theorem btreeInsert_mem (a x : Nat) (l : List Nat) :
    x ∈ (btreeInsert a l).1 ↔ x = a ∨ x ∈ l := by
  induction l with
  | nil => simp [btreeInsert]
  | cons y ys ih =>
    show x ∈ (if a < y then (a :: y :: ys, true)
      else if a = y then (y :: ys, false)
      else (y :: (btreeInsert a ys).1, (btreeInsert a ys).2)).1 ↔ _
    by_cases h1 : a < y
    · rw [if_pos h1]
      simp only [List.mem_cons]
    · rw [if_neg h1]
      by_cases h2 : a = y
      · rw [if_pos h2]
        subst h2
        simp only [List.mem_cons]
        tauto
      · rw [if_neg h2]
        show x ∈ y :: (btreeInsert a ys).1 ↔ _
        simp only [List.mem_cons, ih]
        tauto

theorem sortedAsc_cons : ∀ {y : Nat} {ys : List Nat},
    sortedAsc (y :: ys) = true → sortedAsc ys = true ∧ ∀ x ∈ ys, y < x := by
  intro y ys
  induction ys generalizing y with
  | nil => intro _; exact ⟨rfl, by simp⟩
  | cons z rest ih =>
    intro h
    simp only [sortedAsc, Bool.and_eq_true, decide_eq_true_eq] at h
    obtain ⟨hyz, hz⟩ := h
    obtain ⟨_, hall⟩ := ih hz
    refine ⟨hz, ?_⟩
    intro x hx
    rcases List.mem_cons.mp hx with rfl | hx
    · exact hyz
    · exact Nat.lt_trans hyz (hall x hx)

theorem sortedAsc_cons_of {y : Nat} {ys : List Nat} (h1 : sortedAsc ys = true)
    (h2 : ∀ x ∈ ys, y < x) : sortedAsc (y :: ys) = true := by
  cases ys with
  | nil => rfl
  | cons z rest =>
    simp only [sortedAsc, Bool.and_eq_true, decide_eq_true_eq]
    exact ⟨h2 z (by simp), h1⟩

theorem btreeInsert_sorted (a : Nat) : ∀ {l : List Nat},
    sortedAsc l = true → sortedAsc (btreeInsert a l).1 = true := by
  intro l
  induction l with
  | nil => intro _; rfl
  | cons y ys ih =>
    intro h
    obtain ⟨hys, hall⟩ := sortedAsc_cons h
    show sortedAsc (if a < y then (a :: y :: ys, true)
      else if a = y then (y :: ys, false)
      else (y :: (btreeInsert a ys).1, (btreeInsert a ys).2)).1 = true
    by_cases h1 : a < y
    · rw [if_pos h1]
      refine sortedAsc_cons_of h ?_
      intro x hx
      rcases List.mem_cons.mp hx with rfl | hx
      · exact h1
      · exact Nat.lt_trans h1 (hall x hx)
    · rw [if_neg h1]
      by_cases h2 : a = y
      · rw [if_pos h2]
        exact h
      · rw [if_neg h2]
        refine sortedAsc_cons_of (ih hys) ?_
        intro x hx
        rcases (btreeInsert_mem a x ys).mp hx with rfl | hx
        · exact Nat.lt_of_le_of_ne (Nat.le_of_not_lt h1) (Ne.symm h2)
        · exact hall x hx

theorem btreeInsert_flag (a : Nat) : ∀ {l : List Nat},
    sortedAsc l = true → ((btreeInsert a l).2 = true ↔ a ∉ l) := by
  intro l
  induction l with
  | nil => intro _; simp [btreeInsert]
  | cons y ys ih =>
    intro h
    obtain ⟨hys, hall⟩ := sortedAsc_cons h
    show ((if a < y then (a :: y :: ys, true)
      else if a = y then (y :: ys, false)
      else (y :: (btreeInsert a ys).1, (btreeInsert a ys).2)).2 = true ↔ _)
    by_cases h1 : a < y
    · rw [if_pos h1]
      constructor
      · intro _ hc
        rcases List.mem_cons.mp hc with rfl | hc
        · exact Nat.lt_irrefl a h1
        · exact Nat.lt_irrefl a (Nat.lt_trans h1 (hall a hc))
      · intro _
        rfl
    · rw [if_neg h1]
      by_cases h2 : a = y
      · rw [if_pos h2]
        subst h2
        constructor
        · intro hfalse
          exact (Bool.false_ne_true hfalse).elim
        · intro hna
          exact absurd (List.mem_cons_self a ys) hna
      · rw [if_neg h2]
        show ((btreeInsert a ys).2 = true ↔ _)
        rw [ih hys]
        constructor
        · intro hna hc
          rcases List.mem_cons.mp hc with rfl | hc
          · exact h2 rfl
          · exact hna hc
        · intro hc hmem
          exact hc (List.mem_cons_of_mem y hmem)

theorem WF_sorted_adj {g : Graph} (hw : g.WF) (k : Nat) :
    sortedAsc (adjListAt g k) = true := by
  rcases adjListAt_mem_or_nil g k with h | h
  · exact hw.2.2.1 _ h
  · rw [h]; rfl

theorem WF_bound_adj {g : Graph} (hw : g.WF) {k x : Nat}
    (hx : x ∈ adjListAt g k) : x < g.number_of_nodes := by
  rcases adjListAt_mem_or_nil g k with h | h
  · exact hw.2.2.2.1 _ h x hx
  · rw [h] at hx; cases hx

theorem add_edge_isOk (g : Graph) (i j : Nat)
    (hi : i < g.number_of_nodes) (hj : j < g.number_of_nodes) :
    ∃ p, g.add_edge i j = .ok p := by
  have hcond : ¬ (i ≥ g.number_of_nodes ∨ j ≥ g.number_of_nodes) := by
    rintro (h | h) <;> omega
  simp only [Graph.add_edge, if_neg hcond]
  exact ⟨_, rfl⟩

theorem adj_double_set_mem (al : List (List Nat)) (i j x k : Nat)
    (hi : i < al.length) (hj : j < al.length) :
    (x ∈ ((al.set i (btreeInsert j (al.getD i [])).1).set j
        (btreeInsert i
          ((al.set i (btreeInsert j (al.getD i [])).1).getD j [])).1).getD k [])
      ↔ (x ∈ al.getD k [] ∨ (k = i ∧ x = j) ∨ (k = j ∧ x = i)) := by
  have hj1 : j < (al.set i (btreeInsert j (al.getD i [])).1).length := by
    simpa using hj
  by_cases hkj : k = j
  · subst hkj
    rw [getD_set_self hj1, btreeInsert_mem]
    by_cases hki : k = i
    · subst hki
      rw [getD_set_self (by simpa using hi), btreeInsert_mem]
      tauto
    · rw [getD_set_ne (fun h => hki h.symm)]
      tauto
  · rw [getD_set_ne (fun h => hkj h.symm)]
    by_cases hki : k = i
    · subst hki
      rw [getD_set_self hi, btreeInsert_mem]
      tauto
    · rw [getD_set_ne (fun h => hki h.symm)]
      tauto

theorem add_edge_spec (g : Graph) (i j : Nat) (hw : g.WF)
    (hi : i < g.number_of_nodes) (hj : j < g.number_of_nodes)
    {g' : Graph} {b : Bool} (heq : g.add_edge i j = .ok (g', b)) :
    g'.WF ∧
    g'.number_of_nodes = g.number_of_nodes ∧
    g'.number_of_fixed_nodes = g.number_of_fixed_nodes ∧
    g'.number_of_free_nodes = g.number_of_free_nodes ∧
    (∀ k x, x ∈ adjListAt g' k ↔
      x ∈ adjListAt g k ∨ (k = i ∧ x = j) ∨ (k = j ∧ x = i)) ∧
    (b = true ↔ j ∉ adjListAt g i) ∧
    g'.number_of_edges =
      (if i ≠ j ∧ j ∉ adjListAt g i then g.number_of_edges + 1
       else g.number_of_edges) := by
  have hcond : ¬ (i ≥ g.number_of_nodes ∨ j ≥ g.number_of_nodes) := by
    rintro (h | h) <;> omega
  have hi' : i < g.adjacency_list.length := by rw [hw.1]; exact hi
  have hj' : j < g.adjacency_list.length := by rw [hw.1]; exact hj
  simp only [Graph.add_edge, if_neg hcond, Except.ok.injEq, Prod.mk.injEq] at heq
  obtain ⟨hg', hb⟩ := heq
  subst hg'
  subst hb
  have hsortA : sortedAsc (g.adjacency_list.getD i []) = true := WF_sorted_adj hw i
  have hsortB : sortedAsc
      ((g.adjacency_list.set i (btreeInsert j (g.adjacency_list.getD i [])).1).getD j [])
        = true := by
    by_cases hij : i = j
    · subst hij
      rw [getD_set_self hi']
      exact btreeInsert_sorted i hsortA
    · rw [getD_set_ne hij]
      exact WF_sorted_adj hw j
  have hboundB : ∀ x ∈
      (g.adjacency_list.set i (btreeInsert j (g.adjacency_list.getD i [])).1).getD j [],
        x < g.number_of_nodes := by
    intro x hx
    by_cases hij : i = j
    · subst hij
      rw [getD_set_self hi'] at hx
      rcases (btreeInsert_mem i x _).mp hx with rfl | hx
      · exact hj
      · exact WF_bound_adj hw hx
    · rw [getD_set_ne hij] at hx
      exact WF_bound_adj hw hx
  have hmemchar : ∀ k x,
      x ∈ adjListAt { g with
        adjacency_list := (g.adjacency_list.set i (btreeInsert j (g.adjacency_list.getD i [])).1).set j
          (btreeInsert i ((g.adjacency_list.set i (btreeInsert j (g.adjacency_list.getD i [])).1).getD j [])).1
        number_of_edges := if (btreeInsert j (g.adjacency_list.getD i [])).2 ∧
            (btreeInsert i ((g.adjacency_list.set i (btreeInsert j (g.adjacency_list.getD i [])).1).getD j [])).2
          then g.number_of_edges + 1 else g.number_of_edges } k ↔
        x ∈ adjListAt g k ∨ (k = i ∧ x = j) ∨ (k = j ∧ x = i) := by
    intro k x
    exact adj_double_set_mem g.adjacency_list i j x k hi' hj'
  refine ⟨?_, rfl, rfl, rfl, hmemchar, btreeInsert_flag j hsortA, ?_⟩
  · refine ⟨?_, hw.2.1, ?_, ?_, ?_⟩
    · simp only [List.length_set]
      exact hw.1
    · intro l hl
      rcases List.mem_or_eq_of_mem_set hl with hl1 | rfl
      · rcases List.mem_or_eq_of_mem_set hl1 with hl2 | rfl
        · exact hw.2.2.1 _ hl2
        · exact btreeInsert_sorted j hsortA
      · exact btreeInsert_sorted i hsortB
    · intro l hl x hx
      rcases List.mem_or_eq_of_mem_set hl with hl1 | rfl
      · rcases List.mem_or_eq_of_mem_set hl1 with hl2 | rfl
        · exact hw.2.2.2.1 _ hl2 x hx
        · rcases (btreeInsert_mem j x _).mp hx with rfl | hx
          · exact hj
          · exact WF_bound_adj hw hx
      · rcases (btreeInsert_mem i x _).mp hx with rfl | hx
        · exact hi
        · exact hboundB x hx
    · intro a ha b hb
      rw [hmemchar a b, hmemchar b a]
      have hsymab := hw.2.2.2.2 a ha b hb
      tauto
  · by_cases hij : i = j
    · subst hij
      have hiB : i ∈
          (g.adjacency_list.set i (btreeInsert i (g.adjacency_list.getD i [])).1).getD i [] := by
        rw [getD_set_self hi']
        exact (btreeInsert_mem i i _).mpr (Or.inl rfl)
      have hflag2 : (btreeInsert i
          ((g.adjacency_list.set i (btreeInsert i (g.adjacency_list.getD i [])).1).getD i [])).2
            = false := by
        rcases Bool.eq_false_or_eq_true (btreeInsert i
          ((g.adjacency_list.set i (btreeInsert i (g.adjacency_list.getD i [])).1).getD i [])).2
          with h | h
        · exact absurd hiB ((btreeInsert_flag i hsortB).mp h)
        · exact h
      rw [hflag2]
      simp
    · have hflag2iff : ((btreeInsert i
          ((g.adjacency_list.set i (btreeInsert j (g.adjacency_list.getD i [])).1).getD j [])).2 = true
            ↔ j ∉ adjListAt g i) := by
        rw [btreeInsert_flag i hsortB, getD_set_ne hij]
        have := hw.2.2.2.2 i hi j hj
        unfold adjListAt at this ⊢
        tauto
      by_cases hmem : j ∈ adjListAt g i
      · have h1 : (btreeInsert j (g.adjacency_list.getD i [])).2 = false := by
          rcases Bool.eq_false_or_eq_true (btreeInsert j (g.adjacency_list.getD i [])).2 with h | h
          · exact absurd hmem ((btreeInsert_flag j hsortA).mp h)
          · exact h
        rw [h1]
        simp [hij, hmem]
      · have h1 : (btreeInsert j (g.adjacency_list.getD i [])).2 = true :=
          (btreeInsert_flag j hsortA).mpr hmem
        have h2 := hflag2iff.mpr hmem
        rw [h1, h2]
        simp [hij, hmem]

theorem WF_new (f r : Nat) : (Graph.new f r).WF := by
  refine ⟨by simp [Graph.new], rfl, ?_, ?_, ?_⟩
  · intro l hl
    rw [List.eq_of_mem_replicate hl]
    rfl
  · intro l hl x hx
    rw [List.eq_of_mem_replicate hl] at hx
    cases hx
  · intro a _ b _
    show b ∈ (List.replicate (f + r) []).getD a [] ↔ a ∈ (List.replicate (f + r) []).getD b []
    rw [getD_replicate_nil, getD_replicate_nil]
    simp

theorem contains_eq_decide_mem (l : List Nat) (a : Nat) :
    l.contains a = decide (a ∈ l) := by
  by_cases h : a ∈ l
  · rw [decide_eq_true h]
    exact List.elem_iff.mpr h
  · rw [decide_eq_false h]
    rcases Bool.eq_false_or_eq_true (l.contains a) with hh | hh
    · exact absurd (List.elem_iff.mp hh) h
    · exact hh

theorem does_edge_exist_eq (g : Graph) (i j : Nat)
    (hi : i < g.number_of_nodes) (hj : j < g.number_of_nodes) :
    g.does_edge_exist i j = .ok (decide (j ∈ adjListAt g i)) := by
  have hcond : ¬ (i ≥ g.number_of_nodes ∨ j ≥ g.number_of_nodes) := by
    rintro (h | h) <;> omega
  simp only [Graph.does_edge_exist, if_neg hcond]
  rw [contains_eq_decide_mem]
  rfl

/-- C4: for every well-formed graph and valid indices `i`, `j`, `add_edge`
succeeds; afterwards `does_edge_exist` holds in both directions; when the
edge was already present (`b = false`) the edge counter is unchanged; and a
repeated `add_edge i j` returns `Ok(false)` leaving the counter unchanged. -/
theorem C4_add_edge_symmetry_and_idempotence (g : Graph) (hw : g.WF)
    (i j : Nat) (hi : i < g.number_of_nodes) (hj : j < g.number_of_nodes) :
    ∃ g' b, g.add_edge i j = .ok (g', b) ∧
      g'.does_edge_exist i j = .ok true ∧
      g'.does_edge_exist j i = .ok true ∧
      (b = false → g'.number_of_edges = g.number_of_edges) ∧
      ∃ g'', g'.add_edge i j = .ok (g'', false) ∧
        g''.number_of_edges = g'.number_of_edges := by
  obtain ⟨⟨g', b⟩, heq⟩ := add_edge_isOk g i j hi hj
  obtain ⟨hw', hnodes, _, _, hmem, hflag, hcount⟩ :=
    add_edge_spec g i j hw hi hj heq
  have hi2 : i < g'.number_of_nodes := by rw [hnodes]; exact hi
  have hj2 : j < g'.number_of_nodes := by rw [hnodes]; exact hj
  have hmemij : j ∈ adjListAt g' i := (hmem i j).mpr (Or.inr (Or.inl ⟨rfl, rfl⟩))
  have hmemji : i ∈ adjListAt g' j := (hmem j i).mpr (Or.inr (Or.inr ⟨rfl, rfl⟩))
  refine ⟨g', b, heq, ?_, ?_, ?_, ?_⟩
  · rw [does_edge_exist_eq g' i j hi2 hj2, decide_eq_true hmemij]
  · rw [does_edge_exist_eq g' j i hj2 hi2, decide_eq_true hmemji]
  · intro hbf
    have hjin : j ∈ adjListAt g i := by
      by_contra hni
      rw [hflag.mpr hni] at hbf
      cases hbf
    rw [hcount, if_neg]
    rintro ⟨-, hni⟩
    exact hni hjin
  · obtain ⟨⟨g'', b2⟩, heq2⟩ := add_edge_isOk g' i j hi2 hj2
    obtain ⟨_, _, _, _, _, hflag2, hcount2⟩ :=
      add_edge_spec g' i j hw' hi2 hj2 heq2
    have hb2 : b2 = false := by
      rcases Bool.eq_false_or_eq_true b2 with h | h
      · exact absurd hmemij (hflag2.mp h)
      · exact h
    subst hb2
    refine ⟨g'', heq2, ?_⟩
    rw [hcount2, if_neg]
    rintro ⟨-, hni⟩
    exact hni hmemij

/-- Witness for C4: the graph `new 1 1` with the fixed-free edge `(0, 1)`. -/
theorem C4_witness :
    ∃ g' b, (Graph.new 1 1).add_edge 0 1 = .ok (g', b) ∧
      g'.does_edge_exist 0 1 = .ok true ∧
      g'.does_edge_exist 1 0 = .ok true ∧
      (b = false → g'.number_of_edges = (Graph.new 1 1).number_of_edges) ∧
      ∃ g'', g'.add_edge 0 1 = .ok (g'', false) ∧
        g''.number_of_edges = g'.number_of_edges :=
  C4_add_edge_symmetry_and_idempotence (Graph.new 1 1) (by decide) 0 1
    (by decide) (by decide)

/-- C10: adding a self-loop `(i, i)` that is not yet present returns
`Ok(true)` yet leaves `number_of_edges` unchanged: the second directed insert
finds the element already placed by the first, so the counter condition
`inserted1 && inserted2` fails. -/
theorem C10_self_loop_flag_vs_counter (g : Graph) (hw : g.WF) (i : Nat)
    (hi : i < g.number_of_nodes)
    (hnot : g.does_edge_exist i i = .ok false) :
    ∃ g', g.add_edge i i = .ok (g', true) ∧
      g'.number_of_edges = g.number_of_edges := by
  have hnotmem : i ∉ adjListAt g i := by
    rw [does_edge_exist_eq g i i hi hi] at hnot
    intro hmem
    rw [decide_eq_true hmem] at hnot
    cases hnot
  obtain ⟨⟨g', b⟩, heq⟩ := add_edge_isOk g i i hi hi
  obtain ⟨_, _, _, _, _, hflag, hcount⟩ := add_edge_spec g i i hw hi hi heq
  have hb : b = true := hflag.mpr hnotmem
  subst hb
  refine ⟨g', heq, ?_⟩
  rw [hcount, if_neg]
  rintro ⟨hne, -⟩
  exact hne rfl

/-- Witness for C10: self-loop `(0, 0)` on `new 1 1`. -/
theorem C10_witness :
    ∃ g', (Graph.new 1 1).add_edge 0 0 = .ok (g', true) ∧
      g'.number_of_edges = (Graph.new 1 1).number_of_edges :=
  C10_self_loop_flag_vs_counter (Graph.new 1 1) (by decide) 0 (by decide)
    (by decide)

theorem sameSet_true_iff (xs ys : List Nat) :
    sameSet xs ys = true ↔ ((∀ x ∈ xs, x ∈ ys) ∧ ∀ y ∈ ys, y ∈ xs) := by
  unfold sameSet
  rw [Bool.and_eq_true, List.all_eq_true, List.all_eq_true]
  constructor
  · rintro ⟨h1, h2⟩
    exact ⟨fun x hx => List.elem_iff.mp (h1 x hx),
           fun y hy => List.elem_iff.mp (h2 y hy)⟩
  · rintro ⟨h1, h2⟩
    exact ⟨fun x hx => List.elem_iff.mpr (h1 x hx),
           fun y hy => List.elem_iff.mpr (h2 y hy)⟩

theorem perm_of_sameSet_of_length {xs : List Nat} {s n : Nat}
    (hlen : xs.length = n) (hss : sameSet xs (List.range' s n) = true) :
    xs.Perm (List.range' s n) := by
  obtain ⟨_, h2⟩ := (sameSet_true_iff xs (List.range' s n)).mp hss
  have hsub : List.Subperm (List.range' s n) xs :=
    List.subperm_of_subset (List.nodup_range' s n) (fun y hy => h2 y hy)
  have hperm : (List.range' s n).Perm xs :=
    hsub.perm_of_length_le (by simp [hlen])
  exact hperm.symm

theorem compute_for_ordering_len_ne (g : Graph) (ordering : List Nat)
    (h : ordering.length ≠ g.number_of_free_nodes) :
    g.compute_number_of_crossings_for_ordering ordering
      = some (.error
          (.ValueError "The ordering does not contain all free nodes")) := by
  unfold Graph.compute_number_of_crossings_for_ordering
  rw [if_pos h]

theorem compute_for_ordering_sameSet_false (g : Graph) (ordering : List Nat)
    (hlen : ordering.length = g.number_of_free_nodes)
    (hss : sameSet ordering
      (List.range' g.number_of_fixed_nodes
        (g.number_of_nodes - g.number_of_fixed_nodes)) = false) :
    g.compute_number_of_crossings_for_ordering ordering
      = some (.error
          (.ValueError "The ordering does not contain all free nodes")) := by
  unfold Graph.compute_number_of_crossings_for_ordering
  rw [if_neg (by omega), if_pos hss]

theorem compute_for_ordering_valid (g : Graph) (ordering : List Nat)
    (hlen : ordering.length = g.number_of_free_nodes)
    (hss : sameSet ordering
      (List.range' g.number_of_fixed_nodes
        (g.number_of_nodes - g.number_of_fixed_nodes)) = true) :
    g.compute_number_of_crossings_for_ordering ordering
      = (countWithPositions (positionsFind ordering)
          (fixedPairNeighborPairs g)).map Except.ok := by
  unfold Graph.compute_number_of_crossings_for_ordering
  rw [if_neg (by omega), if_neg (by simp [hss])]

theorem map_ok_ne_valueerror (x : Option Nat) (s : String) :
    (x.map Except.ok : Option (Except Error Nat))
      ≠ some (.error (.ValueError s)) := by
  cases x with
  | none => simp
  | some c => simp

theorem sameSet_of_perm {xs ys : List Nat} (h : xs.Perm ys) :
    sameSet xs ys = true := by
  rw [sameSet_true_iff]
  exact ⟨fun x hx => h.mem_iff.mp hx, fun y hy => h.mem_iff.mpr hy⟩

/-- C8: `compute_number_of_crossings_for_ordering` fails with `ValueError`
exactly when the supplied ordering is not a permutation of the free-index
range `[number_of_fixed_nodes, number_of_nodes)` (wrong length, duplicates,
or out-of-range entries); when the ordering is such a permutation the result
is never a `ValueError`. -/
theorem C8_ordering_validation_iff (g : Graph) (ordering : List Nat)
    (hn : g.number_of_nodes = g.number_of_fixed_nodes + g.number_of_free_nodes) :
    ((∃ s, g.compute_number_of_crossings_for_ordering ordering
        = some (.error (.ValueError s))) ↔
      ¬ ordering.Perm
          (List.range' g.number_of_fixed_nodes g.number_of_free_nodes)) := by
  have hrange : g.number_of_nodes - g.number_of_fixed_nodes
      = g.number_of_free_nodes := by omega
  by_cases hlen : ordering.length = g.number_of_free_nodes
  · by_cases hss : sameSet ordering
        (List.range' g.number_of_fixed_nodes
          (g.number_of_nodes - g.number_of_fixed_nodes)) = true
    · have hperm : ordering.Perm
          (List.range' g.number_of_fixed_nodes g.number_of_free_nodes) := by
        rw [hrange] at hss
        rw [← hlen] at hss ⊢
        exact perm_of_sameSet_of_length rfl hss
      constructor
      · rintro ⟨s, heq⟩
        rw [compute_for_ordering_valid g ordering hlen hss] at heq
        exact absurd heq (map_ok_ne_valueerror _ s)
      · intro hnp
        exact absurd hperm hnp
    · have hss' : sameSet ordering
          (List.range' g.number_of_fixed_nodes
            (g.number_of_nodes - g.number_of_fixed_nodes)) = false := by
        rcases Bool.eq_false_or_eq_true (sameSet ordering
          (List.range' g.number_of_fixed_nodes
            (g.number_of_nodes - g.number_of_fixed_nodes))) with h | h
        · exact absurd h hss
        · exact h
      have hnp : ¬ ordering.Perm
          (List.range' g.number_of_fixed_nodes g.number_of_free_nodes) := by
        intro hp
        rw [hrange] at hss'
        rw [sameSet_of_perm hp] at hss'
        cases hss'
      constructor
      · intro _
        exact hnp
      · intro _
        exact ⟨"The ordering does not contain all free nodes",
          compute_for_ordering_sameSet_false g ordering hlen hss'⟩
  · have hnp : ¬ ordering.Perm
        (List.range' g.number_of_fixed_nodes g.number_of_free_nodes) := by
      intro hp
      have := hp.length_eq
      simp only [List.length_range'] at this
      exact hlen this
    constructor
    · intro _
      exact hnp
    · intro _
      exact ⟨"The ordering does not contain all free nodes",
        compute_for_ordering_len_ne g ordering hlen⟩

/-- Witness for C8: `new 1 1` with the invalid ordering `[0]` (a fixed index,
not the free index 1). -/
theorem C8_witness :
    ((∃ s, (Graph.new 1 1).compute_number_of_crossings_for_ordering [0]
        = some (.error (.ValueError s))) ↔
      ¬ [0].Perm (List.range' 1 1)) :=
  C8_ordering_validation_iff (Graph.new 1 1) [0] (by decide)

theorem positionsFindAux_eq_none {x : Nat} : ∀ {l : List Nat} {k : Nat},
    x ∉ l → positionsFindAux x l k = none := by
  intro l
  induction l with
  | nil => intro k _; rfl
  | cons y ys ih =>
    intro k hx
    have hxy : ¬ y = x := fun h => hx (h ▸ List.mem_cons_self y ys)
    have hxys : x ∉ ys := fun h => hx (List.mem_cons_of_mem y h)
    show (match positionsFindAux x ys (k + 1) with
      | some p => some p
      | none => if y = x then some k else none) = none
    rw [ih hxys, if_neg hxy]

theorem positionsFindAux_range' : ∀ (n s k x : Nat), s ≤ x → x < s + n →
    positionsFindAux x (List.range' s n) k = some (k + (x - s)) := by
  intro n
  induction n with
  | zero =>
    intro s k x h1 h2
    omega
  | succ m ih =>
    intro s k x h1 h2
    rw [List.range'_succ]
    show (match positionsFindAux x (List.range' (s + 1) m) (k + 1) with
      | some p => some p
      | none => if s = x then some k else none) = some (k + (x - s))
    by_cases hx : s + 1 ≤ x
    · rw [ih (s + 1) (k + 1) x hx (by omega)]
      show some (k + 1 + (x - (s + 1))) = some (k + (x - s))
      congr 1
      omega
    · have hxs : x = s := by omega
      rw [hxs]
      rw [positionsFindAux_eq_none (by simp only [List.mem_range'_1]; omega)]
      rw [if_pos rfl]
      show some k = some (k + (s - s))
      congr 1
      omega

theorem positionsFind_range' (s n x : Nat) (h1 : s ≤ x) (h2 : x < s + n) :
    positionsFind (List.range' s n) x = some (x - s) := by
  unfold positionsFind
  rw [positionsFindAux_range' n s 0 x h1 h2]
  congr 1
  omega

theorem countWithPositions_eq_countP (posf : Nat → Option Nat) :
    ∀ l : List (Nat × Nat),
    (∀ q ∈ l, ∃ pa pb, posf q.1 = some pa ∧ posf q.2 = some pb ∧
      (pb < pa ↔ q.2 < q.1)) →
    countWithPositions posf l
      = some (l.countP fun q => decide (q.2 < q.1)) := by
  intro l
  induction l with
  | nil => intro _; rfl
  | cons q rest ih =>
    intro h
    obtain ⟨pa, pb, hpa, hpb, hiff⟩ := h q (List.mem_cons_self q rest)
    have hrest := ih fun q' hq' => h q' (List.mem_cons_of_mem q hq')
    show (match posf q.1, posf q.2, countWithPositions posf rest with
      | some p1, some p2, some c => some ((if p2 < p1 then 1 else 0) + c)
      | _, _, _ => none) = _
    rw [hpa, hpb, hrest, List.countP_cons]
    simp only [Option.some.injEq]
    by_cases hq : q.2 < q.1
    · rw [if_pos (hiff.mpr hq), if_pos (decide_eq_true hq)]
      omega
    · rw [if_neg (fun hh => hq (hiff.mp hh)),
        if_neg (fun hh => hq (of_decide_eq_true hh))]
      omega

theorem mem_fixedPairNeighborPairs {g : Graph} {q : Nat × Nat} :
    q ∈ fixedPairNeighborPairs g ↔
    ∃ f1 f2, f1 < f2 ∧ f2 < g.number_of_fixed_nodes ∧
      q.1 ∈ adjListAt g f1 ∧ q.2 ∈ adjListAt g f2 := by
  unfold fixedPairNeighborPairs
  simp only [List.mem_flatMap, List.mem_map, List.mem_range, List.mem_range'_1]
  constructor
  · rintro ⟨f1, hf1, f2, ⟨hf2a, hf2b⟩, a, ha, b, hb, heq⟩
    subst heq
    exact ⟨f1, f2, by omega, by omega, ha, hb⟩
  · rintro ⟨f1, f2, h12, hf2, h1, h2⟩
    exact ⟨f1, by omega, f2, ⟨by omega, by omega⟩, q.1, h1, q.2, h2, rfl⟩

theorem sameSet_self (xs : List Nat) : sameSet xs xs = true := by
  rw [sameSet_true_iff]
  exact ⟨fun x hx => hx, fun x hx => hx⟩

/-- C1 (amended): for every graph all of whose fixed-node neighbours lie in
the free-index range (the bipartite caller contract), calling
`compute_number_of_crossings_for_ordering` with the ascending range
`[number_of_fixed_nodes, number_of_nodes)` returns, without panicking, the
same count as `compute_number_of_crossings_with_default_ordering`. -/
theorem C1_ascending_ordering_matches_default (g : Graph)
    (hn : g.number_of_nodes
      = g.number_of_fixed_nodes + g.number_of_free_nodes)
    (hb : ∀ f, f < g.number_of_fixed_nodes → ∀ x ∈ adjListAt g f,
      g.number_of_fixed_nodes ≤ x ∧ x < g.number_of_nodes) :
    g.compute_number_of_crossings_for_ordering
        (List.range' g.number_of_fixed_nodes
          (g.number_of_nodes - g.number_of_fixed_nodes))
      = some g.compute_number_of_crossings_with_default_ordering := by
  have hlen : (List.range' g.number_of_fixed_nodes
      (g.number_of_nodes - g.number_of_fixed_nodes)).length
        = g.number_of_free_nodes := by
    rw [List.length_range']
    omega
  rw [compute_for_ordering_valid g _ hlen (sameSet_self _)]
  rw [countWithPositions_eq_countP]
  · rfl
  · intro q hq
    obtain ⟨f1, f2, h12, hf2, h1, h2⟩ := mem_fixedPairNeighborPairs.mp hq
    obtain ⟨ha1, ha2⟩ := hb f1 (by omega) q.1 h1
    obtain ⟨hb1, hb2⟩ := hb f2 hf2 q.2 h2
    refine ⟨q.1 - g.number_of_fixed_nodes, q.2 - g.number_of_fixed_nodes,
      ?_, ?_, by omega⟩
    · exact positionsFind_range' _ _ _ ha1 (by omega)
    · exact positionsFind_range' _ _ _ hb1 (by omega)

/-- C1 counterexample: the claim quantifies over every graph, but edges that
do not respect the (unenforced) bipartite contract break it: after adding the
fixed-fixed edge `(0, 1)` to `new 2 1`, the ascending-ordering call panics in
the position lookup (`none`), while the default-ordering call returns
`Ok(1)`. -/
theorem C1_counterexample :
    ((Graph.new 2 1).add_edge 0 1).map (fun p =>
      (p.1.compute_number_of_crossings_for_ordering
        (List.range' p.1.number_of_fixed_nodes
          (p.1.number_of_nodes - p.1.number_of_fixed_nodes)),
       p.1.compute_number_of_crossings_with_default_ordering))
      = .ok (none, .ok 1) := by decide

/-- Witness for C1 (amended) at the complete bipartite graph on 2 fixed and
2 free nodes. -/
theorem C1_witness :
    (Graph.mk 4 2 2 4 [[2, 3], [2, 3], [0, 1], [0, 1]]).compute_number_of_crossings_for_ordering
        (List.range' 2 2)
      = some (Graph.mk 4 2 2 4
          [[2, 3], [2, 3], [0, 1], [0, 1]]).compute_number_of_crossings_with_default_ordering :=
  C1_ascending_ordering_matches_default
    (Graph.mk 4 2 2 4 [[2, 3], [2, 3], [0, 1], [0, 1]]) (by decide) (by decide)

theorem getElem?_eq_some_getD (l : List Nat) (a : Nat) (h : a < l.length) :
    l[a]? = some (l.getD a 0) := by
  rw [List.getD_eq_getElem?_getD, List.getElem?_eq_getElem h]
  rfl

theorem getD_mem_of_lt (l : List Nat) (a : Nat) (h : a < l.length) :
    l.getD a 0 ∈ l := by
  rw [List.getD_eq_getElem?_getD, List.getElem?_eq_getElem h]
  exact List.getElem_mem h

theorem noCrossingLoop_spec (F : Nat) (p : List Nat)
    (hplen : p.length = F)
    (hpmem : ∀ x ∈ p, F ≤ x ∧ x < F + F) :
    ∀ (m : Nat) (a : Nat) (g : Graph), a + m + 1 ≤ F → g.WF →
    g.number_of_fixed_nodes = F →
    g.number_of_free_nodes = F →
    g.number_of_nodes = F + F →
    (∀ j, j < F → ∀ x, (x ∈ adjListAt g j ↔
      (j < a ∧ (x = p.getD j 0 ∨ x = p.getD (j + 1) 0)))) →
    ∃ g', noCrossingLoop p g (List.range' a m) = some g' ∧ g'.WF ∧
      g'.number_of_fixed_nodes = F ∧
      g'.number_of_free_nodes = F ∧
      g'.number_of_nodes = F + F ∧
      (∀ j, j < F → ∀ x, (x ∈ adjListAt g' j ↔
        (j < a + m ∧ (x = p.getD j 0 ∨ x = p.getD (j + 1) 0)))) := by
  intro m
  induction m with
  | zero =>
    intro a g hle hw h1 h2 h3 h5
    exact ⟨g, rfl, hw, h1, h2, h3, by simpa using h5⟩
  | succ mm ih =>
    intro a g hle hw h1 h2 h3 h5
    have ha : a < p.length := by omega
    have ha1 : a + 1 < p.length := by omega
    have hget1 := getElem?_eq_some_getD p a ha
    have hget2 := getElem?_eq_some_getD p (a + 1) ha1
    have hmem1p := hpmem _ (getD_mem_of_lt p a ha)
    have hmem2p := hpmem _ (getD_mem_of_lt p (a + 1) ha1)
    have hb1 : p.getD a 0 < g.number_of_nodes := by omega
    have hb2 : p.getD (a + 1) 0 < g.number_of_nodes := by omega
    have hbfix : a < g.number_of_nodes := by omega
    obtain ⟨⟨g1, b1⟩, heq1⟩ := add_edge_isOk g (p.getD a 0) a hb1 hbfix
    obtain ⟨hw1, hn1, hf1, hr1, hmem1, -, -⟩ :=
      add_edge_spec g (p.getD a 0) a hw hb1 hbfix heq1
    obtain ⟨⟨g2, b2⟩, heq2⟩ := add_edge_isOk g1 (p.getD (a + 1) 0) a
      (by omega) (by omega)
    obtain ⟨hw2, hn2, hf2, hr2, hmem2, -, -⟩ :=
      add_edge_spec g1 (p.getD (a + 1) 0) a hw1 (by omega) (by omega) heq2
    have hchar2 : ∀ j, j < F → ∀ x, (x ∈ adjListAt g2 j ↔
        (j < a + 1 ∧ (x = p.getD j 0 ∨ x = p.getD (j + 1) 0))) := by
      intro j hj x
      rw [hmem2 j x, hmem1 j x, h5 j hj x]
      constructor
      · rintro ((⟨hja, hx⟩ | ⟨hjp, rfl⟩ | ⟨hja, rfl⟩) | ⟨hjp1, rfl⟩ | ⟨hja, rfl⟩)
        · exact ⟨by omega, hx⟩
        · omega
        · subst hja
          exact ⟨by omega, Or.inl rfl⟩
        · omega
        · subst hja
          exact ⟨by omega, Or.inr rfl⟩
      · rintro ⟨hja, hx⟩
        by_cases hja' : j < a
        · exact Or.inl (Or.inl ⟨hja', hx⟩)
        · have hje : j = a := by omega
          subst hje
          rcases hx with rfl | rfl
          · exact Or.inl (Or.inr (Or.inr ⟨rfl, rfl⟩))
          · exact Or.inr (Or.inr ⟨rfl, rfl⟩)
    obtain ⟨g', hloop, hw', hcf, hcr, hcn, hchar'⟩ :=
      ih (a + 1) g2 (by omega) hw2 (by rw [hf2, hf1]; exact h1)
        (by rw [hr2, hr1]; exact h2) (by rw [hn2, hn1]; exact h3) hchar2
    refine ⟨g', ?_, hw', hcf, hcr, hcn, ?_⟩
    · rw [List.range'_succ]
      simp only [noCrossingLoop, hget1, hget2, heq1, heq2]
      exact hloop
    · intro j hj x
      rw [hchar' j hj x]
      constructor
      · rintro ⟨hja, hx⟩
        exact ⟨by omega, hx⟩
      · rintro ⟨hja, hx⟩
        exact ⟨by omega, hx⟩

theorem build_no_crossing_spec (F : Nat) (p : List Nat) (hF : 1 ≤ F)
    (hp : p.Perm (List.range' F F)) :
    ∃ g, GraphBuilder.build_graph_with_fixed_nodes_and_no_crossings F p
        = some g ∧ g.WF ∧
      g.number_of_fixed_nodes = F ∧ g.number_of_free_nodes = F ∧
      g.number_of_nodes = F + F ∧
      (∀ j, j < F → ∀ x, (x ∈ adjListAt g j ↔
        ((j < F - 1 ∧ (x = p.getD j 0 ∨ x = p.getD (j + 1) 0)) ∨
         (j = F - 1 ∧ x = p.getD (F - 1) 0)))) := by
  have hplen : p.length = F := by
    rw [hp.length_eq, List.length_range']
  have hpmem : ∀ x ∈ p, F ≤ x ∧ x < F + F := by
    intro x hx
    have hx' := hp.mem_iff.mp hx
    rw [List.mem_range'_1] at hx'
    exact hx'
  have hinit : ∀ j, j < F → ∀ x,
      (x ∈ adjListAt (Graph.new F F) j ↔
        (j < 0 ∧ (x = p.getD j 0 ∨ x = p.getD (j + 1) 0))) := by
    intro j _ x
    show x ∈ (List.replicate (F + F) []).getD j [] ↔ _
    rw [getD_replicate_nil]
    simp
  obtain ⟨g1, hloop, hw1, hf1, hr1, hn1, hchar1⟩ :=
    noCrossingLoop_spec F p hplen hpmem (F - 1) 0 (Graph.new F F)
      (by omega) (WF_new F F) rfl rfl rfl hinit
  have hlast : p.getLast? = some (p.getD (F - 1) 0) := by
    rw [List.getLast?_eq_getElem?, hplen]
    exact getElem?_eq_some_getD p (F - 1) (by omega)
  have hmemlast := hpmem _ (getD_mem_of_lt p (F - 1) (by omega))
  obtain ⟨⟨g2, b2⟩, heq2⟩ := add_edge_isOk g1 (p.getD (F - 1) 0) (F - 1)
    (by omega) (by omega)
  obtain ⟨hw2, hn2, hf2, hr2, hmem2, -, -⟩ :=
    add_edge_spec g1 (p.getD (F - 1) 0) (F - 1) hw1 (by omega) (by omega) heq2
  refine ⟨g2, ?_, hw2, by rw [hf2, hf1], by rw [hr2, hr1], by rw [hn2, hn1], ?_⟩
  · unfold GraphBuilder.build_graph_with_fixed_nodes_and_no_crossings
    rw [List.range_eq_range']
    simp only [hloop, hlast, heq2]
  · intro j hj x
    rw [hmem2 j x, hchar1 j hj x]
    constructor
    · rintro (⟨hja, hx⟩ | ⟨hjp, rfl⟩ | ⟨hja, rfl⟩)
      · exact Or.inl ⟨by omega, hx⟩
      · omega
      · exact Or.inr ⟨hja, rfl⟩
    · rintro (⟨hja, hx⟩ | ⟨hja, rfl⟩)
      · exact Or.inl ⟨by omega, hx⟩
      · exact Or.inr (Or.inr ⟨hja, rfl⟩)

theorem positionsFindAux_nodup : ∀ {l : List Nat}, l.Nodup →
    ∀ {m k : Nat}, m < l.length →
    positionsFindAux (l.getD m 0) l k = some (k + m) := by
  intro l
  induction l with
  | nil =>
    intro _ m k hm
    simp at hm
  | cons y ys ih =>
    intro hnd m k hm
    obtain ⟨hy, hys⟩ := List.nodup_cons.mp hnd
    cases m with
    | zero =>
      show (match positionsFindAux y ys (k + 1) with
        | some q => some q
        | none => if y = y then some k else none) = some (k + 0)
      rw [positionsFindAux_eq_none hy, if_pos rfl]
      rfl
    | succ mm =>
      have hmm : mm < ys.length := by simpa using hm
      show (match positionsFindAux (ys.getD mm 0) ys (k + 1) with
        | some q => some q
        | none => if y = ys.getD mm 0 then some k else none)
          = some (k + (mm + 1))
      rw [ih hys hmm]
      show some (k + 1 + mm) = some (k + (mm + 1))
      congr 1
      omega

theorem positionsFind_nodup (l : List Nat) (hnd : l.Nodup) (m : Nat)
    (hm : m < l.length) : positionsFind l (l.getD m 0) = some m := by
  unfold positionsFind
  rw [positionsFindAux_nodup hnd hm]
  show some (0 + m) = some m
  congr 1
  omega

theorem countWithPositions_zero (posf : Nat → Option Nat) :
    ∀ l : List (Nat × Nat),
    (∀ q ∈ l, ∃ pa pb, posf q.1 = some pa ∧ posf q.2 = some pb ∧ ¬ pb < pa) →
    countWithPositions posf l = some 0 := by
  intro l
  induction l with
  | nil => intro _; rfl
  | cons q rest ih =>
    intro h
    obtain ⟨pa, pb, hpa, hpb, hnlt⟩ := h q (List.mem_cons_self q rest)
    have hrest := ih fun q' hq' => h q' (List.mem_cons_of_mem q hq')
    show (match posf q.1, posf q.2, countWithPositions posf rest with
      | some p1, some p2, some c => some ((if p2 < p1 then 1 else 0) + c)
      | _, _, _ => none) = some 0
    rw [hpa, hpb, hrest]
    show some ((if pb < pa then 1 else 0) + 0) = some 0
    rw [if_neg hnlt]

/-- C5 (amended): for every `F ≥ 1` (and every shuffle outcome, i.e. every
permutation of the free range) the builder returns a graph without failing,
with `F` fixed nodes, `F` free nodes and `2 F` nodes; `F = 0` is excluded:
there the builder panics (see the counterexample) instead of returning an
empty graph. -/
theorem C5_no_crossing_builder_totality (F : Nat) (p : List Nat)
    (hF : 1 ≤ F) (hp : p.Perm (List.range' F F)) :
    ∃ g, GraphBuilder.build_graph_with_fixed_nodes_and_no_crossings F p
        = some g ∧
      g.number_of_fixed_nodes = F ∧ g.number_of_free_nodes = F ∧
      g.number_of_nodes = F + F := by
  obtain ⟨g, h1, -, h2, h3, h4, -⟩ := build_no_crossing_spec F p hF hp
  exact ⟨g, h1, h2, h3, h4⟩

/-- Witness for C5 (amended) at `F = 1`, shuffle `[1]`. -/
theorem C5_witness :
    ∃ g, GraphBuilder.build_graph_with_fixed_nodes_and_no_crossings 1 [1]
        = some g ∧
      g.number_of_fixed_nodes = 1 ∧ g.number_of_free_nodes = 1 ∧
      g.number_of_nodes = 1 + 1 :=
  C5_no_crossing_builder_totality 1 [1] (by decide) (by decide)

/-- C5 counterexample: at `F = 0` the shuffled vector is empty and the
builder panics (`0 - 1` underflow in debug, `.expect`/`.unwrap()` on the
empty vector in release) rather than returning an empty graph. -/
theorem C5_counterexample :
    GraphBuilder.build_graph_with_fixed_nodes_and_no_crossings 0 [] = none :=
  rfl

/-- C2: for every `F ≥ 1` and every permutation `p` of the free range chosen
by the builder's shuffle, the built graph reports zero crossings under the
witness ordering `p`: `compute_number_of_crossings_for_ordering p = Ok(0)`. -/
theorem C2_no_crossing_builder_zero_crossings (F : Nat) (p : List Nat)
    (hF : 1 ≤ F) (hp : p.Perm (List.range' F F)) :
    ∃ g, GraphBuilder.build_graph_with_fixed_nodes_and_no_crossings F p
        = some g ∧
      g.compute_number_of_crossings_for_ordering p = some (.ok 0) := by
  obtain ⟨g, hbuild, -, hfix, hfree, hnodes, hchar⟩ :=
    build_no_crossing_spec F p hF hp
  refine ⟨g, hbuild, ?_⟩
  have hplen : p.length = F := by
    rw [hp.length_eq, List.length_range']
  have hnodup : p.Nodup := hp.nodup_iff.mpr (List.nodup_range' F F)
  have hlenord : p.length = g.number_of_free_nodes := by rw [hplen, hfree]
  have hss : sameSet p
      (List.range' g.number_of_fixed_nodes
        (g.number_of_nodes - g.number_of_fixed_nodes)) = true := by
    have h1 : g.number_of_nodes - g.number_of_fixed_nodes = F := by
      rw [hnodes, hfix]
      omega
    rw [h1, hfix]
    exact sameSet_of_perm hp
  rw [compute_for_ordering_valid g p hlenord hss]
  rw [countWithPositions_zero]
  · rfl
  · intro q hq
    obtain ⟨f1, f2, h12, hf2, h1, h2⟩ := mem_fixedPairNeighborPairs.mp hq
    rw [hfix] at hf2
    have hc1 := (hchar f1 (by omega) q.1).mp h1
    have hc2 := (hchar f2 hf2 q.2).mp h2
    have hj1 : ∃ j1, q.1 = p.getD j1 0 ∧ j1 ≤ f1 + 1 ∧ j1 < F := by
      rcases hc1 with ⟨hlt, hx | hx⟩ | ⟨heqF, hx⟩
      · exact ⟨f1, hx, by omega, by omega⟩
      · exact ⟨f1 + 1, hx, by omega, by omega⟩
      · exact absurd heqF (by omega)
    have hj2 : ∃ j2, q.2 = p.getD j2 0 ∧ f2 ≤ j2 ∧ j2 < F := by
      rcases hc2 with ⟨hlt, hx | hx⟩ | ⟨heqF, hx⟩
      · exact ⟨f2, hx, by omega, by omega⟩
      · exact ⟨f2 + 1, hx, by omega, by omega⟩
      · exact ⟨F - 1, hx, by omega, by omega⟩
    obtain ⟨j1, hx1, hj1a, hj1b⟩ := hj1
    obtain ⟨j2, hx2, hj2a, hj2b⟩ := hj2
    refine ⟨j1, j2, ?_, ?_, by omega⟩
    · rw [hx1]
      exact positionsFind_nodup p hnodup j1 (by rw [hplen]; exact hj1b)
    · rw [hx2]
      exact positionsFind_nodup p hnodup j2 (by rw [hplen]; exact hj2b)

/-- Witness for C2 at `F = 2` with the non-identity shuffle `[3, 2]`. -/
theorem C2_witness :
    ∃ g, GraphBuilder.build_graph_with_fixed_nodes_and_no_crossings 2 [3, 2]
        = some g ∧
      g.compute_number_of_crossings_for_ordering [3, 2] = some (.ok 0) :=
  C2_no_crossing_builder_zero_crossings 2 [3, 2] (by decide) (by decide)

theorem randomEdgeLoop_spec :
    ∀ (draws : List (Nat × Nat)) (r : Nat) (g : Graph), g.WF →
    (∀ j, j < g.number_of_fixed_nodes → ∀ x ∈ adjListAt g j,
      g.number_of_fixed_nodes ≤ x ∧ x < g.number_of_nodes) →
    (∀ j, g.number_of_fixed_nodes ≤ j → j < g.number_of_nodes →
      ∀ x ∈ adjListAt g j, x < g.number_of_fixed_nodes) →
    ∀ {g' : Graph}, randomEdgeLoop g r draws = some (.ok g') →
    (g'.number_of_edges = g.number_of_edges + r ∧
     g'.number_of_fixed_nodes = g.number_of_fixed_nodes ∧
     g'.number_of_free_nodes = g.number_of_free_nodes ∧
     g'.number_of_nodes = g.number_of_nodes ∧
     (∀ j, j < g'.number_of_fixed_nodes → ∀ x ∈ adjListAt g' j,
       g'.number_of_fixed_nodes ≤ x ∧ x < g'.number_of_nodes) ∧
     (∀ j, g'.number_of_fixed_nodes ≤ j → j < g'.number_of_nodes →
       ∀ x ∈ adjListAt g' j, x < g'.number_of_fixed_nodes)) := by
  intro draws
  induction draws with
  | nil =>
    intro r g hw hbfix hbfree g' h
    cases r with
    | zero =>
      simp only [randomEdgeLoop, Option.some.injEq, Except.ok.injEq] at h
      subst h
      exact ⟨by omega, rfl, rfl, rfl, hbfix, hbfree⟩
    | succ rr =>
      simp only [randomEdgeLoop] at h
      cases h
  | cons d ds ih =>
    intro r g hw hbfix hbfree g' h
    cases r with
    | zero =>
      simp only [randomEdgeLoop, Option.some.injEq, Except.ok.injEq] at h
      subst h
      exact ⟨by omega, rfl, rfl, rfl, hbfix, hbfree⟩
    | succ rr =>
      have hsum := hw.2.1
      simp only [randomEdgeLoop] at h
      split at h
      · rename_i fixed_node_index free_node_index hgen1 hgen2
        unfold genRange at hgen1 hgen2
        by_cases hfix : 0 < g.number_of_fixed_nodes
        swap
        · rw [if_neg hfix] at hgen1
          cases hgen1
        by_cases hfree : g.number_of_fixed_nodes < g.number_of_nodes
        swap
        · rw [if_neg hfree] at hgen2
          cases hgen2
        rw [if_pos hfix] at hgen1
        rw [if_pos hfree] at hgen2
        injection hgen1 with hfi
        injection hgen2 with hfri
        have hfi_lt : fixed_node_index < g.number_of_fixed_nodes := by
          have hm : d.1 % (g.number_of_fixed_nodes - 0)
              < g.number_of_fixed_nodes - 0 := Nat.mod_lt _ (by omega)
          omega
        have hfri_ge : g.number_of_fixed_nodes ≤ free_node_index := by omega
        have hfri_lt : free_node_index < g.number_of_nodes := by
          have hm : d.2 % (g.number_of_nodes - g.number_of_fixed_nodes)
              < g.number_of_nodes - g.number_of_fixed_nodes :=
            Nat.mod_lt _ (by omega)
          omega
        obtain ⟨⟨g2, b2⟩, heqa⟩ :=
          add_edge_isOk g free_node_index fixed_node_index hfri_lt (by omega)
        obtain ⟨hw2, hn2, hf2, hr2, hmem2, hflag2, hcount2⟩ :=
          add_edge_spec g free_node_index fixed_node_index hw hfri_lt
            (by omega) heqa
        have hbfix2 : ∀ j, j < g2.number_of_fixed_nodes →
            ∀ x ∈ adjListAt g2 j,
            g2.number_of_fixed_nodes ≤ x ∧ x < g2.number_of_nodes := by
          intro j hj x hx
          rw [hf2] at hj ⊢
          rw [hn2]
          rcases (hmem2 j x).mp hx with hold | ⟨rfl, rfl⟩ | ⟨rfl, rfl⟩
          · exact hbfix j hj x hold
          · omega
          · omega
        have hbfree2 : ∀ j, g2.number_of_fixed_nodes ≤ j →
            j < g2.number_of_nodes → ∀ x ∈ adjListAt g2 j,
            x < g2.number_of_fixed_nodes := by
          intro j hj1 hj2 x hx
          rw [hf2] at hj1 ⊢
          rw [hn2] at hj2
          rcases (hmem2 j x).mp hx with hold | ⟨rfl, rfl⟩ | ⟨rfl, rfl⟩
          · exact hbfree j hj1 hj2 x hold
          · omega
          · omega
        rw [heqa] at h
        cases b2 with
        | true =>
          have hnewedge : g2.number_of_edges = g.number_of_edges + 1 := by
            rw [hcount2, if_pos]
            refine ⟨by omega, ?_⟩
            exact (hflag2).mp rfl
          obtain ⟨he', hf', hr', hn', hx1, hx2⟩ :=
            ih rr g2 hw2 hbfix2 hbfree2 h
          refine ⟨by omega, by rw [hf', hf2], by rw [hr', hr2],
            by rw [hn', hn2], hx1, hx2⟩
        | false =>
          have hsame : g2.number_of_edges = g.number_of_edges := by
            rw [hcount2, if_neg]
            rintro ⟨-, hni⟩
            have hmemi : fixed_node_index ∈ adjListAt g free_node_index := by
              by_contra hno
              have := hflag2.mpr hno
              cases this
            exact hni hmemi
          obtain ⟨he', hf', hr', hn', hx1, hx2⟩ :=
            ih (rr + 1) g2 hw2 hbfix2 hbfree2 h
          refine ⟨by omega, by rw [hf', hf2], by rw [hr', hr2],
            by rw [hn', hn2], hx1, hx2⟩
      · cases h

/-- C3 (amended): with `usize`-sized inputs, `build_random_graph` fails with
`ValueError` whenever `e > fixed * free` as mathematical integers; and every
run that returns a graph returns one with exactly `e` edges whose every edge
joins a fixed-range index to a free-range index. (Termination is not part of
the guarantee: a stream that keeps repeating one pair loops forever, see the
counterexample.) -/
theorem C3_build_random_graph_spec (nf nfr e : Nat)
    (draws : List (Nat × Nat))
    (_h1 : nf < USIZE) (_h2 : nfr < USIZE) (h3 : e < USIZE) :
    (e > nf * nfr →
      GraphBuilder.build_random_graph nf nfr e draws
        = some (.error (.ValueError
            "It is not possible to construct the graph with that many edges"))) ∧
    (∀ g, GraphBuilder.build_random_graph nf nfr e draws = some (.ok g) →
      g.number_of_edges = e ∧
      g.number_of_fixed_nodes = nf ∧ g.number_of_free_nodes = nfr ∧
      (∀ j, j < nf → ∀ x ∈ adjListAt g j, nf ≤ x ∧ x < nf + nfr) ∧
      (∀ j, nf ≤ j → j < nf + nfr → ∀ x ∈ adjListAt g j, x < nf)) := by
  constructor
  · intro he
    unfold GraphBuilder.build_random_graph
    rw [if_pos (by omega : nf * nfr < USIZE), if_pos he]
  · intro g hg
    have hinitfix : ∀ j, j < (Graph.new nf nfr).number_of_fixed_nodes →
        ∀ x ∈ adjListAt (Graph.new nf nfr) j,
        (Graph.new nf nfr).number_of_fixed_nodes ≤ x ∧
          x < (Graph.new nf nfr).number_of_nodes := by
      intro j _ x hx
      show nf ≤ x ∧ x < nf + nfr
      have : x ∈ (List.replicate (nf + nfr) ([] : List Nat)).getD j [] := hx
      rw [getD_replicate_nil] at this
      cases this
    have hinitfree : ∀ j, (Graph.new nf nfr).number_of_fixed_nodes ≤ j →
        j < (Graph.new nf nfr).number_of_nodes →
        ∀ x ∈ adjListAt (Graph.new nf nfr) j,
        x < (Graph.new nf nfr).number_of_fixed_nodes := by
      intro j _ _ x hx
      have : x ∈ (List.replicate (nf + nfr) ([] : List Nat)).getD j [] := hx
      rw [getD_replicate_nil] at this
      cases this
    have hloop : randomEdgeLoop (Graph.new nf nfr) e draws = some (.ok g) := by
      unfold GraphBuilder.build_random_graph at hg
      by_cases hlt : nf * nfr < USIZE
      · rw [if_pos hlt] at hg
        by_cases he : e > nf * nfr
        · rw [if_pos he] at hg
          cases hg
        · rw [if_neg he] at hg
          exact hg
      · rw [if_neg hlt] at hg
        exact hg
    obtain ⟨he', hf', hr', hn', hx1, hx2⟩ :=
      randomEdgeLoop_spec draws e (Graph.new nf nfr) (WF_new nf nfr)
        hinitfix hinitfree hloop
    have hfg : g.number_of_fixed_nodes = nf := hf'
    have hrg : g.number_of_free_nodes = nfr := hr'
    have hng : g.number_of_nodes = nf + nfr := hn'
    refine ⟨by simpa [Graph.new] using he', hfg, hrg, ?_, ?_⟩
    · intro j hj x hx
      have := hx1 j (by rw [hfg]; exact hj) x hx
      rw [hfg, hng] at this
      exact this
    · intro j hj1 hj2 x hx
      have := hx2 j (by rw [hfg]; exact hj1) (by rw [hng]; exact hj2) x hx
      rw [hfg] at this
      exact this

/-- Witness for C3 (amended) at `nf = nfr = 1`, `e = 2 > 1` (the `ValueError`
branch) with an empty stream. -/
theorem C3_witness :
    (2 > 1 * 1 →
      GraphBuilder.build_random_graph 1 1 2 []
        = some (.error (.ValueError
            "It is not possible to construct the graph with that many edges"))) ∧
    (∀ g, GraphBuilder.build_random_graph 1 1 2 [] = some (.ok g) →
      g.number_of_edges = 2 ∧
      g.number_of_fixed_nodes = 1 ∧ g.number_of_free_nodes = 1 ∧
      (∀ j, j < 1 → ∀ x ∈ adjListAt g j, 1 ≤ x ∧ x < 1 + 1) ∧
      (∀ j, 1 ≤ j → j < 1 + 1 → ∀ x ∈ adjListAt g j, x < 1)) :=
  C3_build_random_graph_spec 1 1 2 [] (by decide) (by decide) (by decide)

/-- C3 counterexample: the claim as stated promises, for feasible requests
and every random stream, a returned graph with `e` edges; but a stream that
repeats the draw pair `(0, 0)` (i.e. always the same fixed and free index)
makes `build_random_graph 1 2 2` loop forever: after placing the first edge,
every retry is a duplicate, so no result is produced however many draws are
consumed. -/
theorem C3_counterexample :
    GraphBuilder.build_random_graph 1 2 2 (List.replicate 2 (0, 0))
      = none := by decide

theorem random_loop_stuck_on_duplicate : ∀ m : Nat,
    randomEdgeLoop (Graph.mk 3 1 2 1 [[1], [0], []]) 1
      (List.replicate m (0, 0)) = none := by
  intro m
  induction m with
  | zero => rfl
  | succ mm ih => exact ih

/-- The divergence behind the C3 counterexample is genuine, not an artifact
of finite fuel: for a stream whose every draw is `(0, 0)`, the run of
`build_random_graph 1 2 2` is still unfinished after any number of draws. -/
theorem build_random_graph_repeated_draw_diverges : ∀ n : Nat,
    GraphBuilder.build_random_graph 1 2 2 (List.replicate n (0, 0))
      = none := by
  intro n
  cases n with
  | zero => rfl
  | succ m => exact random_loop_stuck_on_duplicate m

theorem dropWhile_nil_of_all {pre : List String}
    (h : ∀ l ∈ pre, startsWithChar l 'p' = false) :
    pre.dropWhile (fun l => !startsWithChar l 'p') = [] := by
  induction pre with
  | nil => rfl
  | cons a as ih =>
    rw [List.dropWhile_cons_of_pos]
    · exact ih fun l hl => h l (List.mem_cons_of_mem a hl)
    · rw [h a (List.mem_cons_self a as)]
      rfl

theorem dropWhile_append_skip {pre xs : List String}
    (h : ∀ l ∈ pre, startsWithChar l 'p' = false) :
    (pre ++ xs).dropWhile (fun l => !startsWithChar l 'p')
      = xs.dropWhile (fun l => !startsWithChar l 'p') := by
  induction pre with
  | nil => rfl
  | cons a as ih =>
    show ((a :: (as ++ xs)).dropWhile fun l => !startsWithChar l 'p') = _
    rw [List.dropWhile_cons_of_pos]
    · exact ih fun l hl => h l (List.mem_cons_of_mem a hl)
    · rw [h a (List.mem_cons_self a as)]
      rfl

theorem build_from_lines_skip (pre : List String) (xs : List String)
    (hpre : ∀ l ∈ pre, startsWithChar l 'p' = false) :
    GraphBuilder.build_graph_from_lines (pre ++ xs)
      = GraphBuilder.build_graph_from_lines xs := by
  unfold GraphBuilder.build_graph_from_lines
  rw [dropWhile_append_skip hpre]

theorem build_from_lines_no_p (pre : List String)
    (hpre : ∀ l ∈ pre, startsWithChar l 'p' = false) :
    GraphBuilder.build_graph_from_lines pre
      = .error (.ParseError "Could not find a valid p line in the file") := by
  unfold GraphBuilder.build_graph_from_lines
  rw [dropWhile_nil_of_all hpre]

theorem dropWhile_cons_stop (hdr : String) (xs : List String)
    (hhdr : startsWithChar hdr 'p' = true) :
    (hdr :: xs).dropWhile (fun l => !startsWithChar l 'p') = hdr :: xs := by
  have hb : (!startsWithChar hdr 'p') = false := by rw [hhdr]; rfl
  rw [List.dropWhile_cons]
  simp only [hb]
  rfl

theorem build_from_lines_invalid_header (hdr : String) (rest : List String)
    (hhdr : startsWithChar hdr 'p' = true)
    (hbad : PLineInfo.build hdr = none) :
    GraphBuilder.build_graph_from_lines (hdr :: rest)
      = .error (.ParseError "The found p-line was invalid") := by
  unfold GraphBuilder.build_graph_from_lines
  rw [dropWhile_cons_stop hdr rest hhdr]
  show (match PLineInfo.build hdr with
    | none =>
      (Except.error (Error.ParseError "The found p-line was invalid") :
        Except Error Graph)
    | some info =>
      match processEdgeLines
          (Graph.new info.number_of_fixed_nodes info.number_of_free_nodes)
          rest with
      | Except.error e => Except.error e
      | Except.ok g =>
        if info.number_of_edges ≠ g.number_of_edges then
          Except.error (Error.ParseError (String.mk
            ("The number of edges in the file was invalid. ".data
              ++ natToChars info.number_of_edges
              ++ " were expected, but ".data
              ++ natToChars g.number_of_edges
              ++ " were actually found.".data)))
        else Except.ok g)
      = Except.error (Error.ParseError "The found p-line was invalid")
  rw [hbad]

theorem build_from_lines_valid_header (hdr : String) (rest : List String)
    (hhdr : startsWithChar hdr 'p' = true) {info : PLineInfo}
    (hinfo : PLineInfo.build hdr = some info) :
    GraphBuilder.build_graph_from_lines (hdr :: rest)
      = (match processEdgeLines
            (Graph.new info.number_of_fixed_nodes info.number_of_free_nodes)
            rest with
        | .error e => .error e
        | .ok g =>
          if info.number_of_edges ≠ g.number_of_edges then
            .error (.ParseError (String.mk
              ("The number of edges in the file was invalid. ".data
                ++ natToChars info.number_of_edges
                ++ " were expected, but ".data
                ++ natToChars g.number_of_edges
                ++ " were actually found.".data)))
          else .ok g) := by
  unfold GraphBuilder.build_graph_from_lines
  rw [dropWhile_cons_stop hdr rest hhdr]
  show (match PLineInfo.build hdr with
    | none =>
      (Except.error (Error.ParseError "The found p-line was invalid") :
        Except Error Graph)
    | some info =>
      match processEdgeLines
          (Graph.new info.number_of_fixed_nodes info.number_of_free_nodes)
          rest with
      | Except.error e => Except.error e
      | Except.ok g =>
        if info.number_of_edges ≠ g.number_of_edges then
          Except.error (Error.ParseError (String.mk
            ("The number of edges in the file was invalid. ".data
              ++ natToChars info.number_of_edges
              ++ " were expected, but ".data
              ++ natToChars g.number_of_edges
              ++ " were actually found.".data)))
        else Except.ok g)
      = (match processEdgeLines
            (Graph.new info.number_of_fixed_nodes info.number_of_free_nodes)
            rest with
        | Except.error e => Except.error e
        | Except.ok g =>
          if info.number_of_edges ≠ g.number_of_edges then
            Except.error (Error.ParseError (String.mk
              ("The number of edges in the file was invalid. ".data
                ++ natToChars info.number_of_edges
                ++ " were expected, but ".data
                ++ natToChars g.number_of_edges
                ++ " were actually found.".data)))
          else Except.ok g)
  rw [hinfo]

theorem processEdgeLines_append (l1 : List String) : ∀ (l2 : List String)
    (g : Graph), processEdgeLines g (l1 ++ l2)
      = (match processEdgeLines g l1 with
        | .error e => .error e
        | .ok g1 => processEdgeLines g1 l2) := by
  induction l1 with
  | nil => intro l2 g; rfl
  | cons line rest ih =>
    intro l2 g
    by_cases hc : (startsWithChar line 'c' = true ∨ line.data = [])
    · show processEdgeLines g (line :: (rest ++ l2)) = _
      simp only [processEdgeLines, if_pos hc]
      exact ih l2 g
    · show processEdgeLines g (line :: (rest ++ l2)) = _
      cases hp : GraphBuilder.parse_edge_line line with
      | none =>
        simp only [processEdgeLines, if_neg hc, hp]
      | some uv =>
        obtain ⟨u, v⟩ := uv
        cases ha : g.add_edge (usizeSub1 u) (usizeSub1 v) with
        | error e =>
          simp only [processEdgeLines, if_neg hc, hp, ha]
        | ok p =>
          obtain ⟨g2, b⟩ := p
          simp only [processEdgeLines, if_neg hc, hp, ha]
          exact ih l2 g2

theorem add_edge_fields {g g' : Graph} {i j : Nat} {b : Bool}
    (h : g.add_edge i j = .ok (g', b)) :
    g'.number_of_nodes = g.number_of_nodes ∧
    g'.number_of_fixed_nodes = g.number_of_fixed_nodes ∧
    g'.number_of_free_nodes = g.number_of_free_nodes := by
  unfold Graph.add_edge at h
  by_cases hc : (i ≥ g.number_of_nodes ∨ j ≥ g.number_of_nodes)
  · rw [if_pos hc] at h
    cases h
  · rw [if_neg hc] at h
    simp only [Except.ok.injEq, Prod.mk.injEq] at h
    obtain ⟨hg, -⟩ := h
    subst hg
    exact ⟨rfl, rfl, rfl⟩

theorem processEdgeLines_fields (l : List String) : ∀ (g : Graph) {g' : Graph},
    processEdgeLines g l = .ok g' →
    g'.number_of_nodes = g.number_of_nodes := by
  induction l with
  | nil =>
    intro g g' h
    cases h
    rfl
  | cons line rest ih =>
    intro g g' h
    by_cases hc : (startsWithChar line 'c' = true ∨ line.data = [])
    · simp only [processEdgeLines, if_pos hc] at h
      exact ih g h
    · cases hp : GraphBuilder.parse_edge_line line with
      | none =>
        simp only [processEdgeLines, if_neg hc, hp] at h
        cases h
      | some uv =>
        obtain ⟨u, v⟩ := uv
        cases ha : g.add_edge (usizeSub1 u) (usizeSub1 v) with
        | error e =>
          simp only [processEdgeLines, if_neg hc, hp, ha] at h
          cases h
        | ok p =>
          obtain ⟨g2, b⟩ := p
          simp only [processEdgeLines, if_neg hc, hp, ha] at h
          have h1 := ih g2 h
          have h2 := (add_edge_fields ha).1
          rw [h1, h2]

theorem add_edge_error_of_oob (g : Graph) (i j : Nat)
    (h : i ≥ g.number_of_nodes ∨ j ≥ g.number_of_nodes) :
    g.add_edge i j = .error (.IndexError "Index out of bounds") := by
  unfold Graph.add_edge
  rw [if_pos h]

/-- C7 (amended): the header search skips every line up to the first one
starting with `'p'`, regardless of content (not only comments and blanks).
If no line starts with `'p'`, or the first such line does not split into
exactly 5 space-separated words whose last three parse as `usize`,
`build_graph_from_file` fails with `ParseError`. -/
theorem C7_header_validation (pre : List String) (hdr : String)
    (rest : List String)
    (hpre : ∀ l ∈ pre, startsWithChar l 'p' = false)
    (hhdr : startsWithChar hdr 'p' = true)
    (hbad : PLineInfo.build hdr = none) :
    GraphBuilder.build_graph_from_lines pre
        = .error (.ParseError "Could not find a valid p line in the file") ∧
    GraphBuilder.build_graph_from_lines (pre ++ hdr :: rest)
        = .error (.ParseError "The found p-line was invalid") := by
  refine ⟨build_from_lines_no_p pre hpre, ?_⟩
  rw [build_from_lines_skip pre _ hpre]
  exact build_from_lines_invalid_header hdr rest hhdr hbad

/-- Witness for C7 (amended): no line starts with `p` in `["x"]`, and the
line `"p q"` (2 words, not 5) is an invalid header. -/
theorem C7_witness :
    GraphBuilder.build_graph_from_lines ["x"]
        = .error (.ParseError "Could not find a valid p line in the file") ∧
    GraphBuilder.build_graph_from_lines ["x", "p q"]
        = .error (.ParseError "The found p-line was invalid") :=
  C7_header_validation ["x"] "p q" [] (by decide) (by decide) (by decide)

/-- C7 counterexample: the claim demands `ParseError` whenever the first
non-comment, non-blank line is not a valid header; but the code's
`lines.find(starts_with('p'))` silently skips the garbage line `"x"` and
accepts the later header, returning an empty graph successfully. -/
theorem C7_counterexample :
    GraphBuilder.build_graph_from_lines ["x", "p ocm 0 0 0"]
      = .ok (Graph.new 0 0) := by decide

/-- C6 (amended): after a valid header, a non-comment, non-blank edge line
that does not parse as exactly two space-separated integers is reported as
`ParseError "Unexpected line found!"`; but an edge line that parses with a
`0` component is NOT a `ParseError`: the 1-to-0-index conversion wraps
(`0 - 1 = usize::MAX` in release; debug builds panic) and `add_edge` reports
`IndexError` instead. All failures are explicit result values in release
builds. -/
theorem C6_edge_line_failures (pre : List String) (hdr : String)
    (body1 : List String) (line : String) (body2 : List String)
    (info : PLineInfo) (g1 : Graph)
    (hpre : ∀ l ∈ pre, startsWithChar l 'p' = false)
    (hhdr : startsWithChar hdr 'p' = true)
    (hinfo : PLineInfo.build hdr = some info)
    (hproc : processEdgeLines (Graph.new info.number_of_fixed_nodes
      info.number_of_free_nodes) body1 = .ok g1)
    (hline : ¬ (startsWithChar line 'c' = true ∨ line.data = [])) :
    (GraphBuilder.parse_edge_line line = none →
      GraphBuilder.build_graph_from_lines
          (pre ++ hdr :: (body1 ++ line :: body2))
        = .error (.ParseError "Unexpected line found!")) ∧
    (∀ u v, GraphBuilder.parse_edge_line line = some (u, v) →
      (u = 0 ∨ v = 0) →
      info.number_of_fixed_nodes + info.number_of_free_nodes < USIZE →
      GraphBuilder.build_graph_from_lines
          (pre ++ hdr :: (body1 ++ line :: body2))
        = .error (.IndexError "Index out of bounds")) := by
  have hnodes : g1.number_of_nodes
      = info.number_of_fixed_nodes + info.number_of_free_nodes := by
    have := processEdgeLines_fields body1 _ hproc
    rw [this]
    rfl
  constructor
  · intro hparse
    rw [build_from_lines_skip pre _ hpre,
      build_from_lines_valid_header hdr _ hhdr hinfo,
      processEdgeLines_append body1 (line :: body2) _]
    simp only [hproc, processEdgeLines, if_neg hline, hparse]
  · intro u v hparse hzero hsize
    rw [build_from_lines_skip pre _ hpre,
      build_from_lines_valid_header hdr _ hhdr hinfo,
      processEdgeLines_append body1 (line :: body2) _]
    have herr : g1.add_edge (usizeSub1 u) (usizeSub1 v)
        = .error (.IndexError "Index out of bounds") := by
      apply add_edge_error_of_oob
      rcases hzero with rfl | rfl
      · left
        unfold usizeSub1
        rw [if_pos rfl, hnodes]
        omega
      · right
        unfold usizeSub1
        rw [if_pos rfl, hnodes]
        omega
    simp only [hproc, processEdgeLines, if_neg hline, hparse, herr]

/-- Witness for C6 (amended): file `["p ocm 1 1 1", "x"]` whose edge line
`"x"` is malformed. -/
theorem C6_witness :
    (GraphBuilder.parse_edge_line "x" = none →
      GraphBuilder.build_graph_from_lines ["p ocm 1 1 1", "x"]
        = .error (.ParseError "Unexpected line found!")) ∧
    (∀ u v, GraphBuilder.parse_edge_line "x" = some (u, v) →
      (u = 0 ∨ v = 0) →
      (PLineInfo.mk "ocm".data 1 1 1).number_of_fixed_nodes
          + (PLineInfo.mk "ocm".data 1 1 1).number_of_free_nodes < USIZE →
      GraphBuilder.build_graph_from_lines ["p ocm 1 1 1", "x"]
        = .error (.IndexError "Index out of bounds")) :=
  C6_edge_line_failures [] "p ocm 1 1 1" [] "x" []
    (PLineInfo.mk "ocm".data 1 1 1) (Graph.new 1 1) (by simp)
    (by decide) (by decide) (by decide) (by decide)

/-- C6 counterexample: the claim says an edge line containing the integer 0
yields `ParseError`; on the file `["p ocm 1 1 1", "0 1"]` the code instead
returns `IndexError` (the 0 wraps to `usize::MAX`, which is out of bounds;
a debug build would panic on the subtraction). -/
theorem C6_counterexample :
    GraphBuilder.build_graph_from_lines ["p ocm 1 1 1", "0 1"]
      = .error (.IndexError "Index out of bounds") := by decide

/-- C9: for a file whose body is processed without error, a mismatch between
the header's declared edge count and the number of distinct edges actually
counted yields a `ParseError` whose message names both values. -/
theorem C9_edge_count_mismatch (pre : List String) (hdr : String)
    (body : List String) (info : PLineInfo) (g : Graph)
    (hpre : ∀ l ∈ pre, startsWithChar l 'p' = false)
    (hhdr : startsWithChar hdr 'p' = true)
    (hinfo : PLineInfo.build hdr = some info)
    (hproc : processEdgeLines (Graph.new info.number_of_fixed_nodes
      info.number_of_free_nodes) body = .ok g)
    (hne : info.number_of_edges ≠ g.number_of_edges) :
    GraphBuilder.build_graph_from_lines (pre ++ hdr :: body)
      = .error (.ParseError (String.mk
          ("The number of edges in the file was invalid. ".data
            ++ natToChars info.number_of_edges
            ++ " were expected, but ".data
            ++ natToChars g.number_of_edges
            ++ " were actually found.".data))) := by
  rw [build_from_lines_skip pre _ hpre,
    build_from_lines_valid_header hdr _ hhdr hinfo]
  simp only [hproc]
  rw [if_pos hne]

/-- Witness for C9: the spec's `p ocm 2 2 3` scenario. The four edge lines
produce 1 distinct counted edge under the code's `(u-1, v-1)` conversion
("1 1" and "2 2" are self-loops that are never counted, "2 1" repeats
"1 2"), so the declared 3 mismatches the actual 1 and parsing fails with
`ParseError` naming both counts. -/
theorem C9_witness :
    GraphBuilder.build_graph_from_lines
        ["p ocm 2 2 3", "1 1", "1 2", "2 1", "2 2"]
      = .error (.ParseError (String.mk
          ("The number of edges in the file was invalid. ".data
            ++ natToChars 3
            ++ " were expected, but ".data
            ++ natToChars 1
            ++ " were actually found.".data))) :=
  C9_edge_count_mismatch [] "p ocm 2 2 3"
    ["1 1", "1 2", "2 1", "2 2"] (PLineInfo.mk "ocm".data 2 2 3)
    (Graph.mk 4 2 2 1 [[0, 1], [0, 1], [], []])
    (by simp) (by decide) (by decide) (by decide) (by decide)
